import Mathlib

/-!
Shallow embedding of the approval workflow engine of the
Expenses-manager repository (`expenses/approval_engine.py`,
class `ApprovalWorkflowEngine`), together with the parts of the
data model (`expenses/models.py`) the engine reads.

Conventions of the embedding:
* Django model rows become Lean structures; the database becomes an
  explicit `EngineState` (the list of users, approval rules and
  approval rows) threaded through the operations.
* JSON configuration dicts read by the engine (`rule.approval_flow`,
  approver-config dicts, `rule.conditions['categories']`,
  `expense.metadata['approval_rule_id']`) are modelled as structures
  of `Option` fields: `none` models an absent key, mirroring each
  `dict.get` in the source.
* `Decimal` amounts become `Int`; Python truthiness of a bound
  (`if rule.min_amount and ...`) is modelled as "present and nonzero".
* Python float percentages become exact `ℚ` arithmetic.
* Code paths that `raise` become `Except.error`; since an exception
  inside `transaction.atomic()` rolls every write back, an `error`
  result carries no state change.
* Timestamps, log messages, human-readable message strings and the
  audit entries written into `expense.metadata` are not modelled; the
  fields of `ReviewResult` keep only the parts of the returned dicts
  that the verified claims are about (`action`, `expense_status`,
  and the numeric progress counters).
-/

namespace ExpensesManager

/-- A row of the `User` model: the fields the engine reads
(`id`, `name`, `email`, `role`, `company`, `is_active`). -/
structure User where
  id : Nat
  name : String
  email : String
  role : String
  company : Nat
  is_active : Bool
deriving DecidableEq

/-- An approver-configuration dict as read by
`_matches_approver_config` / `_find_approver_by_config`: each key is
optional; `auto_approve` models `config.get('auto_approve', False)`. -/
structure ApproverConfig where
  role : Option String := none
  user_id : Option Nat := none
  email : Option String := none
  min_level : Option Nat := none
  auto_approve : Bool := false
deriving DecidableEq

/-- The `approval_flow` JSON dict of a rule, as read by the engine:
`strategy` (absent defaults to `"sequential"` at each read site),
`approvers` (the ordered sequential chain), `percentage_required`
(absent defaults to 60), `eligible_approvers`, `special_approvers`. -/
structure ApprovalFlow where
  strategy : Option String := none
  approvers : List ApproverConfig := []
  percentage_required : Option Nat := none
  eligible_approvers : List ApproverConfig := []
  special_approvers : List ApproverConfig := []
deriving DecidableEq

/-- A row of the `ApprovalRule` model, restricted to the fields the
engine reads: `company`, `min_amount`, `max_amount`,
`conditions['categories']` (flattened to `conditions_categories`,
empty list modelling an absent/empty key), `is_active`, `priority`,
and the `approval_flow` configuration. -/
structure ApprovalRule where
  id : Nat
  company : Nat
  min_amount : Option Int := none
  max_amount : Option Int := none
  conditions_categories : List String := []
  is_active : Bool := true
  priority : Int := 0
  approval_flow : ApprovalFlow := {}
deriving DecidableEq

/-- A row of the `Expense` model, restricted to what the engine reads.
`approval_rule_id` models `expense.metadata.get('approval_rule_id')`,
the pinned-rule reference. -/
structure Expense where
  id : Nat
  owner : User
  amount : Int
  category : String
  status : String
  approval_rule_id : Option Nat := none
deriving DecidableEq

/-- `Expense.company` is a derived property in the model:
`return self.owner.company`. -/
def Expense.company (e : Expense) : Nat := e.owner.company

/-- A row of the `Approval` model: the fields the engine reads and
writes (`expense`, `approver`, `status`, `comment`). -/
structure Approval where
  expense_id : Nat
  approver : User
  status : String
  comment : String := ""
deriving DecidableEq

/-- The database state the engine operates on: all user rows, all
approval-rule rows (in the order the `min_amount` query sees them),
and all approval rows. -/
structure EngineState where
  users : List User
  rules : List ApprovalRule
  approvals : List Approval
deriving DecidableEq

/-- The semantically relevant parts of the result dict returned by a
review: the `action` and `expense_status` keys plus the numeric
progress counters of the pending variants. -/
structure ReviewResult where
  action : String
  expense_status : String
  approvals_count : Option Nat := none
  total_required : Option Nat := none
  approved_count : Option Nat := none
  total_eligible : Option Nat := none
  approved_managers : Option Nat := none
  total_managers : Option Nat := none
  approval_reason : Option String := none
deriving DecidableEq

/-- A successful review outcome: the updated database state, the
updated expense row, and the result dict. -/
abbrev ReviewOutput := EngineState × Expense × ReviewResult

/-- The hierarchy level table of `_matches_approver_config`:
`{'employee': 1, 'manager': 2, 'admin': 3}.get(user.role, 0)`. -/
def user_level (role : String) : Nat :=
  if role = "employee" then 1
  else if role = "manager" then 2
  else if role = "admin" then 3
  else 0

/-- `_matches_approver_config`: every populated key must agree; a key
that is absent imposes no constraint, so a fully empty config matches. -/
def matches_approver_config (user : User) (config : ApproverConfig) : Bool :=
  (match config.role with
   | some r => decide (user.role = r)
   | none => true) &&
  (match config.user_id with
   | some uid => decide (user.id = uid)
   | none => true) &&
  (match config.email with
   | some em => decide (user.email = em)
   | none => true) &&
  (match config.min_level with
   | some ml => decide (ml ≤ user_level user.role)
   | none => true)

/-- Python truthiness of an approver-config dict, used by
`_process_sequential_approval` (`if next_approver_config:`). -/
def ApproverConfig.nonempty (c : ApproverConfig) : Bool :=
  c.role.isSome || c.user_id.isSome || c.email.isSome || c.min_level.isSome ||
    c.auto_approve

/-- `Approval.objects.filter(expense=expense, status='approved').count()`. -/
def countApproved (approvals : List Approval) (e : Expense) : Nat :=
  (approvals.filter
    (fun a => decide (a.expense_id = e.id) && decide (a.status = "approved"))).length

/-- `Approval.objects.filter(expense=expense, approver=approver,
status='approved').exists()` — the already-approved guard. -/
def hasApprovedAlready (approvals : List Approval) (e : Expense) (u : User) : Bool :=
  approvals.any (fun a =>
    decide (a.expense_id = e.id) && decide (a.approver.id = u.id) &&
      decide (a.status = "approved"))

/-- The sequential branch of `_is_authorized_by_rule`: the reviewer must
match the chain entry at index `count(approved approvals)`; past the end
of the chain the branch falls through to `return False`. -/
def sequentialAuthorized (approvals : List Approval) (e : Expense) (approver : User)
    (chain : List ApproverConfig) : Bool :=
  if countApproved approvals e < chain.length then
    matches_approver_config approver (chain.getD (countApproved approvals e) {})
  else false

/-- `_is_authorized_by_rule`. The `special_approver` branch of the
source recursively re-enters the function on a throwaway rule
`{strategy: 'sequential', approvers: flow['approvers']}`; that
recursive call lands in the sequential branch, embedded here as the
direct `sequentialAuthorized` disjunct. A strategy tag matching none
of the five branches returns `false`. -/
def is_authorized_by_rule (approvals : List Approval) (e : Expense) (approver : User)
    (flow : ApprovalFlow) : Bool :=
  if flow.strategy.getD "sequential" = "sequential" then
    sequentialAuthorized approvals e approver flow.approvers
  else if flow.strategy.getD "sequential" = "percentage" ∨
      flow.strategy.getD "sequential" = "all_managers" then
    flow.eligible_approvers.any (fun config => matches_approver_config approver config)
  else if flow.strategy.getD "sequential" = "any_manager" then
    decide (approver.role = "manager" ∨ approver.role = "admin")
  else if flow.strategy.getD "sequential" = "special_approver" then
    flow.special_approvers.any (fun config => matches_approver_config approver config) ||
      sequentialAuthorized approvals e approver flow.approvers
  else false

/-- The per-rule filter of `_get_approval_rule`'s loop body: skip when a
truthy `min_amount` exceeds the amount, when a truthy `max_amount` is
below it, or when a nonempty category list misses the category
(`Decimal('0')` and an absent bound are both falsy, hence ignored). -/
def ruleMatchesExpense (e : Expense) (rule : ApprovalRule) : Bool :=
  (match rule.min_amount with
   | none => true
   | some m => decide (m = 0) || decide (m ≤ e.amount)) &&
  (match rule.max_amount with
   | none => true
   | some m => decide (m = 0) || decide (e.amount ≤ m)) &&
  (decide (rule.conditions_categories = []) ||
    rule.conditions_categories.contains e.category)

/-- The ordering key of `.order_by('min_amount')`: a NULL `min_amount`
sorts before every value. -/
def minAmountLe (a b : Option Int) : Bool :=
  match a, b with
  | none, _ => true
  | some _, none => false
  | some x, some y => decide (x ≤ y)

/-- Insertion step of the `min_amount`-ascending ordering. -/
def insertByMinAmount (r : ApprovalRule) : List ApprovalRule → List ApprovalRule
  | [] => [r]
  | s :: rest =>
    if minAmountLe r.min_amount s.min_amount then r :: s :: rest
    else s :: insertByMinAmount r rest

/-- The `.order_by('min_amount')` queryset ordering, as insertion sort. -/
def sortByMinAmount : List ApprovalRule → List ApprovalRule
  | [] => []
  | r :: rest => insertByMinAmount r (sortByMinAmount rest)

/-- The fallback scan of `_get_approval_rule`: the company's active
rules in ascending `min_amount` order, first one passing the
amount/category filter. -/
def scan_approval_rules (rules : List ApprovalRule) (e : Expense) : Option ApprovalRule :=
  (sortByMinAmount
    (rules.filter (fun r => decide (r.company = e.company) && r.is_active))).find?
    (ruleMatchesExpense e)

/-- `_get_approval_rule`: first the pinned-rule lookup through
`expense.metadata['approval_rule_id']` (a plain `objects.get(id=...)`,
so neither company nor `is_active` is checked there); otherwise scan
the company's active rules in ascending `min_amount` order and return
the first one passing the amount/category filter. Priority is never
consulted. -/
def get_approval_rule (rules : List ApprovalRule) (e : Expense) : Option ApprovalRule :=
  match e.approval_rule_id with
  | some rid =>
    match rules.find? (fun r => decide (r.id = rid)) with
    | some r => some r
    | none => scan_approval_rules rules e
  | none => scan_approval_rules rules e

/-- `_is_valid_approver`: same company, not the owner, not already
approved, then rule-specific authorization (or the manager/admin
default when no rule applies). The source never consults
`approver.is_active` here. -/
def is_valid_approver (st : EngineState) (e : Expense) (approver : User) : Bool :=
  if e.company = approver.company then
    if e.owner.id = approver.id then false
    else if hasApprovedAlready st.approvals e approver then false
    else
      match get_approval_rule st.rules e with
      | none => decide (approver.role = "manager" ∨ approver.role = "admin")
      | some rule => is_authorized_by_rule st.approvals e approver rule.approval_flow
  else false

/-- `_finalize_approval`: set the expense to `approved` and report
`fully_approved` (metadata audit stamps omitted). -/
def finalize_approval (st : EngineState) (e : Expense) (reason : String) : ReviewOutput :=
  (st, { e with status := "approved" },
   { action := "fully_approved", expense_status := "approved",
     approval_reason := some reason })

/-- `_handle_rejection`: set the expense to `rejected` and report it
(metadata audit stamps omitted). -/
def handle_rejection (st : EngineState) (e : Expense) : ReviewOutput :=
  (st, { e with status := "rejected" },
   { action := "rejected", expense_status := "rejected" })

/-- `_process_sequential_approval`: finalize once the approved count
reaches the chain length, otherwise report pending-next (a falsy chain
entry at the current index also finalizes, mirroring
`if next_approver_config:`). -/
def process_sequential_approval (st : EngineState) (e : Expense)
    (_approval : Approval) (rule : ApprovalRule) : ReviewOutput :=
  if rule.approval_flow.approvers.length ≤ countApproved st.approvals e then
    finalize_approval st e "sequential_complete"
  else if (rule.approval_flow.approvers.getD (countApproved st.approvals e) {}).nonempty then
    (st, e, { action := "approved_pending_next", expense_status := "pending",
              approvals_count := some (countApproved st.approvals e),
              total_required := some rule.approval_flow.approvers.length })
  else finalize_approval st e "sequential_complete"

/-- The eligible-approval count of `_process_percentage_approval`:
approved rows whose approver role appears among the `role` keys of the
eligible-approver configs (`approver__role__in [config.get('role') ...]`;
a config without a `role` key contributes `None`, which no role equals). -/
def eligible_approved_count (approvals : List Approval) (e : Expense)
    (flow : ApprovalFlow) : Nat :=
  (approvals.filter (fun a =>
    decide (a.expense_id = e.id) && decide (a.status = "approved") &&
      (flow.eligible_approvers.map (fun config => config.role)).contains
        (some a.approver.role))).length

/-- The `current_percentage` local of `_process_percentage_approval`:
`(approved_count / total_eligible * 100) if total_eligible > 0 else 0`,
in exact rational arithmetic. -/
def current_percentage_of (st : EngineState) (e : Expense) (rule : ApprovalRule) : ℚ :=
  if 0 < rule.approval_flow.eligible_approvers.length then
    (eligible_approved_count st.approvals e rule.approval_flow : ℚ) /
      (rule.approval_flow.eligible_approvers.length : ℚ) * 100
  else 0

/-- `_process_percentage_approval`: finalize when the current
percentage (0 when there are no eligible approvers) reaches
`percentage_required` (default 60), otherwise report
pending-percentage. No error path exists in this function. -/
def process_percentage_approval (st : EngineState) (e : Expense)
    (rule : ApprovalRule) : ReviewOutput :=
  if ((rule.approval_flow.percentage_required.getD 60 : Nat) : ℚ) ≤
      current_percentage_of st e rule then
    finalize_approval st e "percentage_met"
  else
    (st, e, { action := "approved_pending_percentage", expense_status := "pending",
              approved_count := some (eligible_approved_count st.approvals e rule.approval_flow),
              total_eligible := some rule.approval_flow.eligible_approvers.length })

/-- `_process_special_approver`: finalize if the acting approver
matches a special-approver config carrying `auto_approve`, else run
the sequential processor. -/
def process_special_approver (st : EngineState) (e : Expense)
    (approval : Approval) (rule : ApprovalRule) : ReviewOutput :=
  if rule.approval_flow.special_approvers.any (fun config =>
      matches_approver_config approval.approver config && config.auto_approve) then
    finalize_approval st e ("special_approver_" ++ approval.approver.role)
  else process_sequential_approval st e approval rule

/-- `_process_any_manager_approval`: finalize for a manager/admin,
raise `ValidationError` otherwise. -/
def process_any_manager_approval (st : EngineState) (e : Expense)
    (approval : Approval) (_rule : ApprovalRule) : Except String ReviewOutput :=
  if approval.approver.role = "manager" ∨ approval.approver.role = "admin" then
    .ok (finalize_approval st e "any_manager_approve")
  else .error "Only managers or admins can approve expenses in this workflow"

/-- `User.objects.filter(company=..., role='manager',
is_active=True).count()`. -/
def active_manager_count (users : List User) (e : Expense) : Nat :=
  (users.filter (fun u =>
    decide (u.company = e.company) && decide (u.role = "manager") && u.is_active)).length

/-- `Approval.objects.filter(expense=..., status='approved',
approver__role='manager').count()`. -/
def approved_manager_count (approvals : List Approval) (e : Expense) : Nat :=
  (approvals.filter (fun a =>
    decide (a.expense_id = e.id) && decide (a.status = "approved") &&
      decide (a.approver.role = "manager"))).length

/-- `_process_all_managers_approval`: finalize once the count of
approved manager rows reaches the count of active managers of the
company. -/
def process_all_managers_approval (st : EngineState) (e : Expense)
    (_approval : Approval) (_rule : ApprovalRule) : Except String ReviewOutput :=
  if active_manager_count st.users e ≤ approved_manager_count st.approvals e then
    .ok (finalize_approval st e "all_managers_approved")
  else
    .ok (st, e, { action := "approved_pending_all_managers", expense_status := "pending",
                  approved_managers := some (approved_manager_count st.approvals e),
                  total_managers := some (active_manager_count st.users e) })

/-- `_handle_approval`: no rule means auto-approval; otherwise dispatch
on the strategy tag through `approval_strategies.get(strategy,
self._process_sequential_approval)` — an unknown tag falls back to the
sequential processor. -/
def handle_approval (st : EngineState) (e : Expense) (approval : Approval) :
    Except String ReviewOutput :=
  match get_approval_rule st.rules e with
  | none => .ok (finalize_approval st e "no_rule_auto_approve")
  | some rule =>
    if rule.approval_flow.strategy.getD "sequential" = "percentage" then
      .ok (process_percentage_approval st e rule)
    else if rule.approval_flow.strategy.getD "sequential" = "special_approver" then
      .ok (process_special_approver st e approval rule)
    else if rule.approval_flow.strategy.getD "sequential" = "any_manager" then
      process_any_manager_approval st e approval rule
    else if rule.approval_flow.strategy.getD "sequential" = "all_managers" then
      process_all_managers_approval st e approval rule
    else
      .ok (process_sequential_approval st e approval rule)

/-- The `Approval.objects.create(...)` row of `process_approval_review`:
status `approved` exactly on action `approve`, else `rejected`. -/
def review_approval_row (e : Expense) (approver : User) (action comment : String) :
    Approval :=
  { expense_id := e.id, approver := approver,
    status := if action = "approve" then "approved" else "rejected",
    comment := comment }

/-- `process_approval_review`: validity guard, status guard, creation of
the `Approval` row, then the rejection/approval handler. Both guard
failures raise `ValidationError` inside `transaction.atomic()`, before
the row is created; the rolled-back state is modelled by the error
carrying no state. -/
def process_approval_review (st : EngineState) (e : Expense) (approver : User)
    (action : String) (comment : String) : Except String ReviewOutput :=
  if is_valid_approver st e approver then
    if e.status = "pending" ∨ e.status = "submitted" then
      if action = "reject" then
        .ok (handle_rejection
          { st with approvals := st.approvals ++ [review_approval_row e approver action comment] } e)
      else
        handle_approval
          { st with approvals := st.approvals ++ [review_approval_row e approver action comment] }
          e (review_approval_row e approver action comment)
    else .error "state_conflict"
  else .error "not_authorized"

/-- `get_pending_approvals_for_user`: pending/submitted company
expenses, minus those already approved by this user, filtered by the
validity guard; returned as expense ids. -/
def get_pending_approvals_for_user (st : EngineState) (expenses : List Expense)
    (approver : User) : List Nat :=
  ((expenses.filter (fun e =>
      decide (e.company = approver.company) &&
      (decide (e.status = "pending") || decide (e.status = "submitted")) &&
      !hasApprovedAlready st.approvals e approver)).filter
    (fun e => is_valid_approver st e approver)).map (fun e => e.id)

/-! ## Concrete fixtures used by witnesses and counterexamples -/

/-- Sample employee, owner of the sample expenses. -/
def alice : User := ⟨1, "Alice", "alice@acme.test", "employee", 1, true⟩

/-- Sample active manager of the same company. -/
def bobU : User := ⟨2, "Bob", "bob@acme.test", "manager", 1, true⟩

/-- Sample active admin of the same company. -/
def carolU : User := ⟨3, "Carol", "carol@acme.test", "admin", 1, true⟩

/-- Sample employee used as a specific-user approver spec target. -/
def daveU : User := ⟨4, "Dave", "dave@acme.test", "employee", 1, true⟩

/-- Sample manager with `is_active = false`. -/
def idaU : User := ⟨5, "Ida", "ida@acme.test", "manager", 1, false⟩

/-- Sample pending expense of `alice`, no pinned rule. -/
def e1 : Expense := ⟨100, alice, 300, "travel", "pending", none⟩

/-- State with no approval rules and no approvals. -/
def stNoRule : EngineState := ⟨[alice, bobU, carolU], [], []⟩

/-- State for the inactive-approver counterexample: no rules, the
inactive manager `ida` present. -/
def stInactive : EngineState := ⟨[alice, idaU], [], []⟩

/-- Spec A of the sequential chain: any manager. -/
def cfgManager : ApproverConfig := { role := some "manager" }

/-- Spec B of the sequential chain: any admin. -/
def cfgAdmin : ApproverConfig := { role := some "admin" }

/-- Spec C of the sequential chain: specifically user 4 (`dave`). -/
def cfgDave : ApproverConfig := { user_id := some 4 }

/-- A sequential rule flow with ordered specs [A, B, C]. -/
def flowSeqABC : ApprovalFlow :=
  { strategy := some "sequential", approvers := [cfgManager, cfgAdmin, cfgDave] }

/-- One recorded approval for `e1` (by the manager `bob`). -/
def approvalsOne : List Approval := [⟨100, bobU, "approved", ""⟩]

/-- The concrete outcome of `bob` approving `alice`'s pending expense
in the no-rule state: auto-approval. -/
def outW4 : ReviewOutput :=
  ({ stNoRule with approvals :=
      [{ expense_id := 100, approver := bobU, status := "approved", comment := "ok" }] },
   { e1 with status := "approved" },
   { action := "fully_approved", expense_status := "approved",
     approval_reason := some "no_rule_auto_approve" })

/-- A percentage rule with threshold 60 and two eligible role specs. -/
def rulePct : ApprovalRule :=
  { id := 10, company := 1,
    approval_flow :=
      { strategy := some "percentage", percentage_required := some 60,
        eligible_approvers := [cfgManager, cfgAdmin] } }

/-- State holding the percentage rule and one approved manager row. -/
def stPct : EngineState :=
  ⟨[alice, bobU, carolU], [rulePct],
   [{ expense_id := 100, approver := bobU, status := "approved", comment := "" }]⟩

/-- A rule with no bounds and no category restriction, priority 0. -/
def ruleLow : ApprovalRule := { id := 20, company := 1, priority := 0 }

/-- A rule with `min_amount` 10 and strictly higher priority 5. -/
def ruleHigh : ApprovalRule :=
  { id := 21, company := 1, min_amount := some 10, priority := 5 }

/-- A pending expense of amount 50, matching both sample rules. -/
def e6 : Expense := ⟨101, alice, 50, "travel", "pending", none⟩

/-- A percentage rule (default threshold 60) with an empty
eligible-approvers list. -/
def ruleZeroElig : ApprovalRule :=
  { id := 11, company := 1,
    approval_flow := { strategy := some "percentage", eligible_approvers := [] } }

/-- A pending expense pinned (via metadata) to the zero-eligible rule. -/
def e9 : Expense := ⟨102, alice, 40, "meals", "pending", some 11⟩

/-- State holding only the zero-eligible percentage rule. -/
def st9 : EngineState := ⟨[alice, bobU], [ruleZeroElig], []⟩

/-- A rule whose strategy tag `quorum` is not one of the five
recognized strategies. -/
def ruleUnknown : ApprovalRule :=
  { id := 30, company := 1,
    approval_flow := { strategy := some "quorum", approvers := [cfgManager] } }

/-- A pending expense pinned to the unknown-strategy rule. -/
def e10 : Expense := ⟨103, alice, 70, "misc", "pending", some 30⟩

/-- State holding only the unknown-strategy rule. -/
def st10 : EngineState := ⟨[alice, bobU], [ruleUnknown], []⟩

/-! ## C1 -/

/-- Claim C1: for every expense and every state, a review by the
expense owner fails before any write — `_is_valid_approver` rejects the
owner (the company check trivially passes since `expense.company` is
`owner.company`, then the owner check returns `False`), so
`process_approval_review` raises `ValidationError` before the
`Approval` row is created and before any status change; the error
outcome carries no state, so the expense status is unchanged. -/
theorem owner_review_always_fails (st : EngineState) (e : Expense) (comment : String) :
    is_valid_approver st e e.owner = false ∧
    process_approval_review st e e.owner "approve" comment =
      .error "not_authorized" := by
  have hv : is_valid_approver st e e.owner = false := by
    unfold is_valid_approver
    simp [Expense.company]
  exact ⟨hv, by simp [process_approval_review, hv]⟩

/-! ## C7 -/

/-- Counterexample to claim C7: the claim states that an empty
approver spec matches nobody, but `_matches_approver_config` on the
empty config reaches no early `return False` and ends at
`return True` — here the concrete user `alice` matches the empty spec. -/
theorem empty_config_matches_alice :
    matches_approver_config alice ({} : ApproverConfig) = true := rfl

/-- Claim C7 as amended: an empty approver spec (no role, no user id,
no email, no min_level) matches every user — each key check is vacuous
and `_matches_approver_config` returns `True`, a wildcard rather than
a safety default. -/
theorem empty_config_matches_everyone (u : User) :
    matches_approver_config u ({} : ApproverConfig) = true := rfl

/-! ## C8 -/

/-- Counterexample to claim C8: the claim states the validity guard
returns false for every user with `is_active = false`, but
`_is_valid_approver` never reads `is_active` — the inactive manager
`ida` (same company, not the owner, no prior approval, no rule so the
manager/admin default applies) passes the guard. -/
theorem inactive_manager_passes_guard :
    idaU.is_active = false ∧ is_valid_approver stInactive e1 idaU = true := by
  refine ⟨rfl, ?_⟩
  decide

/-- Claim C8 as amended: the validity guard (`_is_valid_approver`, used
by review and by `get_pending_approvals_for_user`) is entirely
insensitive to the approver's `is_active` flag — flipping the flag
never changes the guard's verdict. Inactive users are filtered
upstream (the API layer resolves the approver with
`get_object_or_404(User, ..., is_active=True)`), not by the engine's
guard. -/
theorem guard_ignores_is_active (st : EngineState) (e : Expense) (u : User) (b : Bool) :
    is_valid_approver st e { u with is_active := b } = is_valid_approver st e u := by
  cases u
  rfl

/-! ## C2 -/

/-- Claim C2: under a sequential rule, `_is_authorized_by_rule`
authorizes a reviewer exactly when the index
`k = count(approved approvals)` is inside the ordered approver chain
and the reviewer matches the spec at index `k`; in particular, with
specs [A, B, C] and one recorded approval, a user matching only spec C
fails the check (instantiated by the witness). -/
theorem sequential_auth_iff (approvals : List Approval) (e : Expense) (u : User)
    (flow : ApprovalFlow) (hs : flow.strategy = some "sequential") :
    is_authorized_by_rule approvals e u flow = true ↔
      (countApproved approvals e < flow.approvers.length ∧
       matches_approver_config u
         (flow.approvers.getD (countApproved approvals e) {}) = true) := by
  have hk : is_authorized_by_rule approvals e u flow =
      sequentialAuthorized approvals e u flow.approvers := by
    unfold is_authorized_by_rule
    rw [hs]
    rfl
  rw [hk]
  unfold sequentialAuthorized
  by_cases h : countApproved approvals e < flow.approvers.length
  · rw [if_pos h]
    simp [h]
  · rw [if_neg h]
    simp [h]

/-- Witness for C2 at the concrete [A, B, C] scenario: one approval is
recorded, so the index is 1 (spec B = admin role); `dave` matches only
spec C, and the instantiated equivalence exhibits his authorization
check. -/
theorem sequential_auth_iff_witness :
    is_authorized_by_rule approvalsOne e1 daveU flowSeqABC = true ↔
      (countApproved approvalsOne e1 < flowSeqABC.approvers.length ∧
       matches_approver_config daveU
         (flowSeqABC.approvers.getD (countApproved approvalsOne e1) {}) = true) :=
  sequential_auth_iff approvalsOne e1 daveU flowSeqABC rfl

/-! ## C3 -/

/-- Claim C3: for any state (hence any strategy), any expense in
`pending`/`submitted` status and any reviewer passing the validity
guard, a `reject` review creates exactly one `rejected` approval row
and finalizes the expense as `rejected`; the outcome is one fixed
value in which no count, percentage or ordering condition occurs. -/
theorem reject_always_finalizes (st : EngineState) (e : Expense) (u : User)
    (c : String) (hv : is_valid_approver st e u = true)
    (hst : e.status = "pending" ∨ e.status = "submitted") :
    process_approval_review st e u "reject" c =
      .ok ({ st with approvals := st.approvals ++
               [{ expense_id := e.id, approver := u,
                  status := "rejected", comment := c }] },
           { e with status := "rejected" },
           { action := "rejected", expense_status := "rejected" }) := by
  simp [process_approval_review, hv, hst, handle_rejection, review_approval_row]

/-- Witness for C3: the manager `bob` rejects `alice`'s pending expense
in the no-rule state; the expense finalizes as `rejected`. -/
theorem reject_always_finalizes_witness :
    process_approval_review stNoRule e1 bobU "reject" "no" =
      .ok ({ stNoRule with approvals := stNoRule.approvals ++
               [{ expense_id := e1.id, approver := bobU,
                  status := "rejected", comment := "no" }] },
           { e1 with status := "rejected" },
           { action := "rejected", expense_status := "rejected" }) :=
  reject_always_finalizes stNoRule e1 bobU "no" (by decide) (Or.inl rfl)

/-! ## C4 -/

/-- The sequential processor returns the state it was given and
preserves the expense identity and owner. -/
lemma process_sequential_fields (st : EngineState) (e : Expense) (ap : Approval)
    (rule : ApprovalRule) :
    (process_sequential_approval st e ap rule).1 = st ∧
    (process_sequential_approval st e ap rule).2.1.id = e.id ∧
    (process_sequential_approval st e ap rule).2.1.owner = e.owner := by
  unfold process_sequential_approval finalize_approval
  split
  · exact ⟨rfl, rfl, rfl⟩
  split
  · exact ⟨rfl, rfl, rfl⟩
  · exact ⟨rfl, rfl, rfl⟩

/-- The percentage processor returns the state it was given and
preserves the expense identity and owner. -/
lemma process_percentage_fields (st : EngineState) (e : Expense)
    (rule : ApprovalRule) :
    (process_percentage_approval st e rule).1 = st ∧
    (process_percentage_approval st e rule).2.1.id = e.id ∧
    (process_percentage_approval st e rule).2.1.owner = e.owner := by
  unfold process_percentage_approval finalize_approval
  split
  · exact ⟨rfl, rfl, rfl⟩
  · exact ⟨rfl, rfl, rfl⟩

/-- The special-approver processor returns the state it was given and
preserves the expense identity and owner. -/
lemma process_special_fields (st : EngineState) (e : Expense) (ap : Approval)
    (rule : ApprovalRule) :
    (process_special_approver st e ap rule).1 = st ∧
    (process_special_approver st e ap rule).2.1.id = e.id ∧
    (process_special_approver st e ap rule).2.1.owner = e.owner := by
  unfold process_special_approver
  split
  · unfold finalize_approval
    exact ⟨rfl, rfl, rfl⟩
  · exact process_sequential_fields st e ap rule

/-- A successful any-manager processing returns the given state and
preserves the expense identity and owner. -/
lemma process_any_manager_ok (st : EngineState) (e : Expense) (ap : Approval)
    (rule : ApprovalRule) (out : ReviewOutput)
    (h : process_any_manager_approval st e ap rule = .ok out) :
    out.1 = st ∧ out.2.1.id = e.id ∧ out.2.1.owner = e.owner := by
  unfold process_any_manager_approval finalize_approval at h
  split at h
  · injection h with h1
    subst h1
    exact ⟨rfl, rfl, rfl⟩
  · exact Except.noConfusion h

/-- A successful all-managers processing returns the given state and
preserves the expense identity and owner. -/
lemma process_all_managers_ok (st : EngineState) (e : Expense) (ap : Approval)
    (rule : ApprovalRule) (out : ReviewOutput)
    (h : process_all_managers_approval st e ap rule = .ok out) :
    out.1 = st ∧ out.2.1.id = e.id ∧ out.2.1.owner = e.owner := by
  unfold process_all_managers_approval finalize_approval at h
  split at h
  · injection h with h1
    subst h1
    exact ⟨rfl, rfl, rfl⟩
  · injection h with h1
    subst h1
    exact ⟨rfl, rfl, rfl⟩

/-- A successful `_handle_approval` returns the given state and
preserves the expense identity and owner, whatever the strategy. -/
lemma handle_approval_ok (st : EngineState) (e : Expense) (ap : Approval)
    (out : ReviewOutput) (h : handle_approval st e ap = .ok out) :
    out.1 = st ∧ out.2.1.id = e.id ∧ out.2.1.owner = e.owner := by
  unfold handle_approval at h
  split at h
  · unfold finalize_approval at h
    injection h with h1
    subst h1
    exact ⟨rfl, rfl, rfl⟩
  · rename_i rule heq
    split at h
    · injection h with h1
      subst h1
      exact process_percentage_fields st e rule
    split at h
    · injection h with h1
      subst h1
      exact process_special_fields st e ap rule
    split at h
    · exact process_any_manager_ok st e ap rule out h
    split at h
    · exact process_all_managers_ok st e ap rule out h
    · injection h with h1
      subst h1
      exact process_sequential_fields st e ap rule

/-- Every successful review appends exactly one `Approval` row (the
acting reviewer, `approved` on action `approve`, else `rejected`) and
preserves the expense identity and owner. -/
lemma process_review_ok_shape (st : EngineState) (e : Expense) (u : User)
    (a c : String) (out : ReviewOutput)
    (h : process_approval_review st e u a c = .ok out) :
    out.1.approvals = st.approvals ++
      [{ expense_id := e.id, approver := u,
         status := if a = "approve" then "approved" else "rejected",
         comment := c }] ∧
    out.2.1.id = e.id ∧ out.2.1.owner = e.owner := by
  unfold process_approval_review at h
  split at h
  · split at h
    · split at h
      · unfold handle_rejection at h
        injection h with h1
        subst h1
        exact ⟨rfl, rfl, rfl⟩
      · have hh := handle_approval_ok _ _ _ _ h
        refine ⟨?_, hh.2.1, hh.2.2⟩
        rw [hh.1]
        rfl
    · exact Except.noConfusion h
  · exact Except.noConfusion h

/-- Claim C4: a first successful `approve` by user `u` appends exactly
one `approved` row for `(e, u)`; the second `approve` attempt by the
same user on the resulting state fails — the already-approved guard in
`_is_valid_approver` finds the recorded row and the review raises
before any write, so no duplicate row is ever created. -/
theorem second_approve_by_same_user_fails (st : EngineState) (e : Expense)
    (u : User) (c1 c2 : String) (out : ReviewOutput)
    (h : process_approval_review st e u "approve" c1 = .ok out) :
    out.1.approvals = st.approvals ++
      [{ expense_id := e.id, approver := u, status := "approved", comment := c1 }] ∧
    process_approval_review out.1 out.2.1 u "approve" c2 =
      .error "not_authorized" := by
  obtain ⟨hap, hid, _hown⟩ := process_review_ok_shape st e u "approve" c1 out h
  have hap2 : out.1.approvals = st.approvals ++
      [{ expense_id := e.id, approver := u, status := "approved", comment := c1 }] := by
    simpa using hap
  refine ⟨hap2, ?_⟩
  have hv : is_valid_approver out.1 out.2.1 u = false := by
    unfold is_valid_approver
    by_cases hc : (out.2.1).company = u.company
    · rw [if_pos hc]
      by_cases ho : (out.2.1).owner.id = u.id
      · rw [if_pos ho]
      · rw [if_neg ho]
        have hdup : hasApprovedAlready out.1.approvals out.2.1 u = true := by
          simp [hasApprovedAlready, hap2, hid]
        rw [hdup]
        simp
    · rw [if_neg hc]
  simp [process_approval_review, hv]

/-- Witness for C4: after `bob`'s successful auto-approval of `e1`, his
second `approve` attempt fails with the authorization error. -/
theorem second_approve_by_same_user_fails_witness :
    outW4.1.approvals = stNoRule.approvals ++
      [{ expense_id := e1.id, approver := bobU, status := "approved", comment := "ok" }] ∧
    process_approval_review outW4.1 outW4.2.1 bobU "approve" "" =
      .error "not_authorized" :=
  second_approve_by_same_user_fails stNoRule e1 bobU "ok" "" outW4 rfl

/-! ## C5 -/

/-- Claim C5: under a percentage rule with `N > 0` eligible approver
specs and required threshold `P` (default 60), processing an approval
finalizes the expense to `approved` exactly when
`100 * approvedCount / N >= P` holds, counting approved rows from
eligible-role holders (the just-recorded approval included, since the
row is created before the processor runs); strictly below `P` the
expense is returned unchanged with a pending result. -/
theorem percentage_threshold (st : EngineState) (e : Expense) (rule : ApprovalRule)
    (hN : 0 < rule.approval_flow.eligible_approvers.length)
    (hstat : e.status = "pending") :
    ((process_percentage_approval st e rule).2.1.status = "approved" ↔
      ((rule.approval_flow.percentage_required.getD 60 : Nat) : ℚ) ≤
        100 * (eligible_approved_count st.approvals e rule.approval_flow : ℚ) /
          (rule.approval_flow.eligible_approvers.length : ℚ)) ∧
    (100 * (eligible_approved_count st.approvals e rule.approval_flow : ℚ) /
          (rule.approval_flow.eligible_approvers.length : ℚ) <
        ((rule.approval_flow.percentage_required.getD 60 : Nat) : ℚ) →
      process_percentage_approval st e rule =
        (st, e,
         { action := "approved_pending_percentage", expense_status := "pending",
           approved_count :=
             some (eligible_approved_count st.approvals e rule.approval_flow),
           total_eligible :=
             some rule.approval_flow.eligible_approvers.length })) := by
  have hcp : current_percentage_of st e rule =
      100 * (eligible_approved_count st.approvals e rule.approval_flow : ℚ) /
        (rule.approval_flow.eligible_approvers.length : ℚ) := by
    unfold current_percentage_of
    rw [if_pos hN]
    ring
  unfold process_percentage_approval
  rw [hcp]
  by_cases hc : ((rule.approval_flow.percentage_required.getD 60 : Nat) : ℚ) ≤
      100 * (eligible_approved_count st.approvals e rule.approval_flow : ℚ) /
        (rule.approval_flow.eligible_approvers.length : ℚ)
  · rw [if_pos hc]
    refine ⟨iff_of_true rfl hc, fun hlt => absurd hc (not_le.mpr hlt)⟩
  · rw [if_neg hc]
    refine ⟨?_, fun _ => rfl⟩
    apply iff_of_false
    · show ¬ e.status = "approved"
      rw [hstat]
      decide
    · exact hc

/-- Witness for C5: one of two eligible approvers has approved, so the
computed percentage is 50 and the equivalence is exhibited at a
concrete below-threshold state. -/
theorem percentage_threshold_witness :
    ((process_percentage_approval stPct e1 rulePct).2.1.status = "approved" ↔
      ((rulePct.approval_flow.percentage_required.getD 60 : Nat) : ℚ) ≤
        100 * (eligible_approved_count stPct.approvals e1 rulePct.approval_flow : ℚ) /
          (rulePct.approval_flow.eligible_approvers.length : ℚ)) ∧
    (100 * (eligible_approved_count stPct.approvals e1 rulePct.approval_flow : ℚ) /
          (rulePct.approval_flow.eligible_approvers.length : ℚ) <
        ((rulePct.approval_flow.percentage_required.getD 60 : Nat) : ℚ) →
      process_percentage_approval stPct e1 rulePct =
        (stPct, e1,
         { action := "approved_pending_percentage", expense_status := "pending",
           approved_count :=
             some (eligible_approved_count stPct.approvals e1 rulePct.approval_flow),
           total_eligible :=
             some rulePct.approval_flow.eligible_approvers.length })) :=
  percentage_threshold stPct e1 rulePct (by decide) rfl

/-! ## C6 -/

lemma minAmountLe_refl (a : Option Int) : minAmountLe a a = true := by
  cases a <;> simp [minAmountLe]

lemma minAmountLe_total (a b : Option Int) :
    minAmountLe a b = true ∨ minAmountLe b a = true := by
  cases a <;> cases b <;> simp [minAmountLe]
  omega

lemma minAmountLe_trans (a b c : Option Int) (h1 : minAmountLe a b = true)
    (h2 : minAmountLe b c = true) : minAmountLe a c = true := by
  cases a <;> cases b <;> cases c <;> simp [minAmountLe] at *
  omega

lemma mem_insertByMinAmount (r x : ApprovalRule) (l : List ApprovalRule) :
    x ∈ insertByMinAmount r l ↔ x = r ∨ x ∈ l := by
  induction l with
  | nil => simp [insertByMinAmount]
  | cons s rest ih =>
      unfold insertByMinAmount
      split
      · simp [List.mem_cons]
      · simp [List.mem_cons, ih]
        tauto

lemma mem_sortByMinAmount (x : ApprovalRule) (l : List ApprovalRule) :
    x ∈ sortByMinAmount l ↔ x ∈ l := by
  induction l with
  | nil => simp [sortByMinAmount]
  | cons r rest ih =>
      simp [sortByMinAmount, mem_insertByMinAmount, ih, List.mem_cons]

lemma pairwise_insertByMinAmount (r : ApprovalRule) (l : List ApprovalRule)
    (h : l.Pairwise (fun a b => minAmountLe a.min_amount b.min_amount = true)) :
    (insertByMinAmount r l).Pairwise
      (fun a b => minAmountLe a.min_amount b.min_amount = true) := by
  induction l with
  | nil => simp [insertByMinAmount]
  | cons s rest ih =>
      unfold insertByMinAmount
      rcases List.pairwise_cons.mp h with ⟨hs, hrest⟩
      split
      · rename_i hrs
        refine List.pairwise_cons.mpr ⟨?_, h⟩
        intro x hx
        rcases List.mem_cons.mp hx with hxs | hxrest
        · rw [hxs]
          exact hrs
        · exact minAmountLe_trans _ _ _ hrs (hs x hxrest)
      · rename_i hrs
        have hsr : minAmountLe s.min_amount r.min_amount = true := by
          rcases minAmountLe_total r.min_amount s.min_amount with h1 | h1
          · exact absurd h1 hrs
          · exact h1
        refine List.pairwise_cons.mpr ⟨?_, ih hrest⟩
        intro x hx
        rcases (mem_insertByMinAmount r x rest).mp hx with hxr | hxrest
        · rw [hxr]
          exact hsr
        · exact hs x hxrest

lemma pairwise_sortByMinAmount (l : List ApprovalRule) :
    (sortByMinAmount l).Pairwise
      (fun a b => minAmountLe a.min_amount b.min_amount = true) := by
  induction l with
  | nil => simp [sortByMinAmount]
  | cons r rest ih => exact pairwise_insertByMinAmount r _ ih

/-- In a `min_amount`-sorted list, `find?` returns an element whose
key is minimal among all elements satisfying the predicate. -/
lemma find?_sorted_minimal (p : ApprovalRule → Bool) (l : List ApprovalRule)
    (hsorted : l.Pairwise (fun a b => minAmountLe a.min_amount b.min_amount = true))
    (r : ApprovalRule) (hf : l.find? p = some r) :
    ∀ x, x ∈ l → p x = true → minAmountLe r.min_amount x.min_amount = true := by
  induction l with
  | nil => cases hf
  | cons a rest ih =>
      rcases List.pairwise_cons.mp hsorted with ⟨ha, hrest⟩
      by_cases hpa : p a = true
      · rw [List.find?_cons_of_pos _ hpa] at hf
        injection hf with h1
        subst h1
        intro x hx _hpx
        rcases List.mem_cons.mp hx with h | h
        · rw [h]
          exact minAmountLe_refl _
        · exact ha x h
      · rw [List.find?_cons_of_neg _ (by simpa using hpa)] at hf
        intro x hx hpx
        rcases List.mem_cons.mp hx with h | h
        · rw [h] at hpx
          exact absurd hpx hpa
        · exact ih hrest hf x h hpx

/-- Counterexample to claim C6: both sample rules are active, in the
company, and match the amount-50 expense, yet `_get_approval_rule`
returns the priority-0 rule (lowest `min_amount` first) and not the
priority-5 rule — rule selection does not return the
highest-priority match. -/
theorem priority_ignored_counterexample :
    get_approval_rule [ruleLow, ruleHigh] e6 = some ruleLow ∧
    ruleHigh.is_active = true ∧ ruleHigh.company = e6.company ∧
    ruleMatchesExpense e6 ruleHigh = true ∧
    ruleLow.priority < ruleHigh.priority ∧ ruleLow ≠ ruleHigh := by
  refine ⟨?_, rfl, rfl, rfl, by decide, by decide⟩
  rfl

/-- Claim C6 as amended: with no pinned rule, `_get_approval_rule`
scans the company's active rules in ascending `min_amount` order and
returns the first rule whose amount bounds contain the amount and
whose category list is empty or contains the category; hence the
returned rule is an eligible match of minimal `min_amount` among all
eligible matches, and priority is never consulted. Selection is a pure
function of its inputs, so repeated calls on unchanged inputs agree. -/
theorem rule_selection_minimal_min_amount (rules : List ApprovalRule) (e : Expense)
    (r r2 : ApprovalRule)
    (hpin : e.approval_rule_id = none)
    (hr : get_approval_rule rules e = some r)
    (h2m : r2 ∈ rules) (h2a : r2.is_active = true) (h2c : r2.company = e.company)
    (h2x : ruleMatchesExpense e r2 = true) :
    r.is_active = true ∧ r.company = e.company ∧ ruleMatchesExpense e r = true ∧
    minAmountLe r.min_amount r2.min_amount = true := by
  have hscan : get_approval_rule rules e = scan_approval_rules rules e := by
    unfold get_approval_rule
    rw [hpin]
  rw [hscan] at hr
  unfold scan_approval_rules at hr
  have hrmem : r ∈ sortByMinAmount
      (rules.filter (fun r => decide (r.company = e.company) && r.is_active)) :=
    List.mem_of_find?_eq_some hr
  have hrmem2 : r ∈ rules.filter
      (fun r => decide (r.company = e.company) && r.is_active) :=
    (mem_sortByMinAmount _ _).mp hrmem
  have hrf := (List.mem_filter.mp hrmem2).2
  rw [Bool.and_eq_true] at hrf
  have hmatch : ruleMatchesExpense e r = true := List.find?_some hr
  have h2f : r2 ∈ rules.filter
      (fun r => decide (r.company = e.company) && r.is_active) :=
    List.mem_filter.mpr ⟨h2m, by simp [h2a, h2c]⟩
  have h2s : r2 ∈ sortByMinAmount
      (rules.filter (fun r => decide (r.company = e.company) && r.is_active)) :=
    (mem_sortByMinAmount _ _).mpr h2f
  refine ⟨hrf.2, of_decide_eq_true hrf.1, hmatch, ?_⟩
  exact find?_sorted_minimal _ _ (pairwise_sortByMinAmount _) r hr r2 h2s h2x

/-- Witness for C6 (amended): among the two concrete matching rules the
scan returns the one with the smaller `min_amount`, which is active, in
the company, a match, and `min_amount`-minimal against the other. -/
theorem rule_selection_minimal_min_amount_witness :
    ruleLow.is_active = true ∧ ruleLow.company = e6.company ∧
    ruleMatchesExpense e6 ruleLow = true ∧
    minAmountLe ruleLow.min_amount ruleHigh.min_amount = true :=
  rule_selection_minimal_min_amount [ruleLow, ruleHigh] e6 ruleLow ruleHigh
    rfl rfl (by decide) rfl rfl rfl

/-! ## Shared guard lemma for C9 / C10 -/

/-- If the rule that `_get_approval_rule` selects does not authorize a
user, the validity guard rejects that user (whichever earlier guard
clause fires). -/
lemma is_valid_approver_of_rule_unauth (st : EngineState) (e : Expense) (u : User)
    (rule : ApprovalRule) (hrule : get_approval_rule st.rules e = some rule)
    (hauth : is_authorized_by_rule st.approvals e u rule.approval_flow = false) :
    is_valid_approver st e u = false := by
  unfold is_valid_approver
  by_cases hc : e.company = u.company
  · rw [if_pos hc]
    by_cases ho : e.owner.id = u.id
    · rw [if_pos ho]
    · rw [if_neg ho]
      by_cases hd : hasApprovedAlready st.approvals e u = true
      · rw [if_pos hd]
      · rw [if_neg hd]
        rw [hrule]
        exact hauth
  · rw [if_neg hc]

/-! ## C9 -/

/-- Counterexample to claim C9: with zero eligible approvers the
percentage processor does not fail — it returns a normal pending
result (percentage computed as 0), with no `ConfigurationError` or any
other error path in the function. -/
theorem zero_eligible_no_error_counterexample :
    process_percentage_approval st9 e9 ruleZeroElig =
      (st9, e9, { action := "approved_pending_percentage", expense_status := "pending",
                  approved_count := some 0, total_eligible := some 0 }) := by
  rfl

/-- Claim C9 as amended: under a pinned percentage rule with zero
eligible approvers and a positive required percentage, the processor
returns a normal pending result (current percentage 0, never an
error), and in the integrated review path the processor is not even
reachable: the rule authorizes nobody, so every review attempt fails
with the authorization error instead. -/
theorem zero_eligible_pending_and_unauthorized (st : EngineState) (e : Expense)
    (rule : ApprovalRule) (u : User) (a c : String)
    (h0 : rule.approval_flow.eligible_approvers = [])
    (hP : 0 < rule.approval_flow.percentage_required.getD 60)
    (hrule : get_approval_rule st.rules e = some rule)
    (hstrat : rule.approval_flow.strategy = some "percentage") :
    process_percentage_approval st e rule =
      (st, e, { action := "approved_pending_percentage", expense_status := "pending",
                approved_count := some 0, total_eligible := some 0 }) ∧
    process_approval_review st e u a c = .error "not_authorized" := by
  have hcnt : eligible_approved_count st.approvals e rule.approval_flow = 0 := by
    simp [eligible_approved_count, h0]
  have hcp : current_percentage_of st e rule = 0 := by
    simp [current_percentage_of, h0]
  have hnotle : ¬ ((rule.approval_flow.percentage_required.getD 60 : Nat) : ℚ) ≤
      current_percentage_of st e rule := by
    rw [hcp]
    exact not_le.mpr (by exact_mod_cast hP)
  have hauth : is_authorized_by_rule st.approvals e u rule.approval_flow = false := by
    unfold is_authorized_by_rule
    rw [hstrat, h0]
    rfl
  have hv : is_valid_approver st e u = false :=
    is_valid_approver_of_rule_unauth st e u rule hrule hauth
  constructor
  · unfold process_percentage_approval
    rw [if_neg hnotle, hcnt, h0]
    rfl
  · simp [process_approval_review, hv]

/-- Witness for C9 (amended): the concrete zero-eligible percentage
rule pinned to `e9`; the processor yields the pending result and the
manager `bob`'s review attempt fails as unauthorized. -/
theorem zero_eligible_witness :
    process_percentage_approval st9 e9 ruleZeroElig =
      (st9, e9, { action := "approved_pending_percentage", expense_status := "pending",
                  approved_count := some 0, total_eligible := some 0 }) ∧
    process_approval_review st9 e9 bobU "approve" "" = .error "not_authorized" :=
  zero_eligible_pending_and_unauthorized st9 e9 ruleZeroElig bobU "approve" ""
    rfl (by decide) rfl rfl

/-! ## C10 -/

/-- Claim C10: under a pinned rule whose strategy tag is none of the
five recognized tags, `_is_authorized_by_rule` returns false for every
user, so every review attempt fails with the authorization error —
even though `_handle_approval`'s dispatch table would fall back to the
sequential processor had authorization succeeded. -/
theorem unknown_strategy_locks_reviews (st : EngineState) (e : Expense)
    (rule : ApprovalRule) (s : String) (u : User) (a c : String) (ap : Approval)
    (hrule : get_approval_rule st.rules e = some rule)
    (hs : rule.approval_flow.strategy = some s)
    (h1 : s ≠ "sequential") (h2 : s ≠ "percentage") (h3 : s ≠ "special_approver")
    (h4 : s ≠ "any_manager") (h5 : s ≠ "all_managers") :
    is_authorized_by_rule st.approvals e u rule.approval_flow = false ∧
    process_approval_review st e u a c = .error "not_authorized" ∧
    handle_approval st e ap = .ok (process_sequential_approval st e ap rule) := by
  have hor : ¬ (s = "percentage" ∨ s = "all_managers") := fun hc => hc.elim h2 h5
  have hauth : is_authorized_by_rule st.approvals e u rule.approval_flow = false := by
    unfold is_authorized_by_rule
    rw [hs]
    simp only [Option.getD_some]
    rw [if_neg h1, if_neg hor, if_neg h4, if_neg h3]
  have hv : is_valid_approver st e u = false :=
    is_valid_approver_of_rule_unauth st e u rule hrule hauth
  refine ⟨hauth, by simp [process_approval_review, hv], ?_⟩
  unfold handle_approval
  simp only [hrule]
  rw [hs]
  simp only [Option.getD_some]
  rw [if_neg h2, if_neg h3, if_neg h4, if_neg h5]

/-- Witness for C10: under the concrete `quorum` rule the manager
`bob` is unauthorized, his review fails, and the dispatch falls back
to the sequential processor. -/
theorem unknown_strategy_locks_reviews_witness :
    is_authorized_by_rule st10.approvals e10 bobU ruleUnknown.approval_flow = false ∧
    process_approval_review st10 e10 bobU "approve" "" = .error "not_authorized" ∧
    handle_approval st10 e10 { expense_id := 103, approver := bobU, status := "approved" } =
      .ok (process_sequential_approval st10 e10
        { expense_id := 103, approver := bobU, status := "approved" } ruleUnknown) :=
  unknown_strategy_locks_reviews st10 e10 ruleUnknown "quorum" bobU "approve" ""
    { expense_id := 103, approver := bobU, status := "approved" }
    rfl rfl (by decide) (by decide) (by decide) (by decide) (by decide)

end ExpensesManager
